import Mathlib

/-!
Shallow embedding of the threshold-calibration and training-lifecycle code of
the `image-anomaly-det` repository (`base_ano_det.py`, `anotwin/train.py`,
`dadgt/dadgt_utils.py`), together with proofs settling the specification
claims about it.  Python floats are modelled as rationals (`ℚ`); the one
genuinely real-valued operation (`np.std`, a square root) is modelled over
`ℝ` with `Real.sqrt`.  Fallible Python code is modelled with `Except String`,
the error string recording which Python exception is raised.
-/

/-- Shared loop body of `binary_clf_thresh_by_tpr` and
`binary_clf_thresh_by_fpr`: scan `(threshold, rate)` pairs in order and
return the first threshold whose paired rate satisfies `m ≤ rate`. -/
def scanPairs (m : ℚ) : List (ℚ × ℚ) → Option ℚ
  | [] => none
  | (th, r) :: rest => if m ≤ r then some th else scanPairs m rest

/-- Embedding of `binary_clf_thresh_by_tpr` (`base_ano_det.py` lines 7-19).
The loop is `for th, rate in zip(thresholds, tpr): if min_tpr <= rate: return th`.
When the loop falls through, Python evaluates `assert tpr[-1] == 1.0`
(an `IndexError` if `tpr` is empty, an `AssertionError` if the last TPR is
not 1.0) and then returns `None`. -/
def binary_clf_thresh_by_tpr (thresholds tpr : List ℚ) (min_tpr : ℚ) :
    Except String (Option ℚ) :=
  match scanPairs min_tpr (thresholds.zip tpr) with
  | some th => .ok (some th)
  | none =>
    match tpr.getLast? with
    | none => .error "IndexError"
    | some lastTpr =>
      if lastTpr = 1 then .ok none
      else .error "AssertionError: TPR should have 1.0 at the end, why?"

/-- Embedding of `binary_clf_thresh_by_fpr` (`base_ano_det.py` lines 22-34).
The loop is `for th, next_rate in zip(thresholds, fpr[1:])`, i.e. each
`thresholds[i]` is paired with `fpr[i+1]`; on fall-through the function
returns `thresholds[-1]` (`none` models the `IndexError` on an empty list). -/
def binary_clf_thresh_by_fpr (thresholds fpr : List ℚ) (max_fpr : ℚ) : Option ℚ :=
  match scanPairs max_fpr (thresholds.zip fpr.tail) with
  | some th => some th
  | none => thresholds.getLast?

/-- Configuration bag `self.params`: each field models the presence or absence
of the corresponding key (`'key' in self.params`). -/
structure Params where
  max_fpr : Option ℚ
  min_tpr : Option ℚ
  sigma_k : Option ℚ
  distance_norm_factor : Option ℚ

/-- `np.mean(scores)`. -/
def list_mean (xs : List ℚ) : ℚ := xs.sum / xs.length

/-- Population variance, the square of `np.std(scores)`. -/
def list_var (xs : List ℚ) : ℚ := (xs.map (fun x => (x - list_mean xs) ^ 2)).sum / xs.length

/-- `np.std(scores)`: population standard deviation. -/
noncomputable def list_std (xs : List ℚ) : ℝ := Real.sqrt ((list_var xs : ℚ) : ℝ)

/-- `np.finfo(float).eps`, the IEEE-754 binary64 machine epsilon `2 ** (-52)`. -/
def float64_eps : ℚ := 1 / 2 ^ 52

/-- Modelled from the spec: `smallestRepresentablePositiveFloat`, the smallest
representable positive IEEE-754 binary64 value, the subnormal `2 ** (-1074)`. -/
def smallestRepresentablePositiveFloat : ℚ := 1 / 2 ^ 1074

/-- `norm_factor = np.max([mean_score, np.finfo(float).eps])`
(`base_ano_det.py` line 158). -/
def norm_factor_of (scores : List ℚ) : ℚ := max (list_mean scores) float64_eps

/-- Embedding of `BaseAnoDet.calc_thresholds` (`base_ano_det.py` lines 146-170).
The three `assert 'key' in self.params` checks come first; then the threshold
array `[mean + sigma_k*std, thresh_by_fpr, thresh_by_tpr]` is built (an
`IndexError` from `thresholds[-1]` on an empty curve, or an exception from
`binary_clf_thresh_by_tpr`, propagates; a `None` TPR threshold makes the
elementwise division `threshs / norm_factor` raise a `TypeError`); finally
each raw threshold is divided by `norm_factor`. -/
noncomputable def calc_thresholds (p : Params) (fpr tpr thresholds scores : List ℚ) :
    Except String (List ℝ × ℚ) :=
  match p.max_fpr with
  | none => .error "Set params.max_fpr."
  | some mf =>
  match p.min_tpr with
  | none => .error "Set params.min_tpr."
  | some mt =>
  match p.sigma_k with
  | none => .error "Set params.sigma_k."
  | some k =>
  match binary_clf_thresh_by_fpr thresholds fpr mf with
  | none => .error "IndexError"
  | some fprTh =>
  match binary_clf_thresh_by_tpr thresholds tpr mt with
  | .error e => .error e
  | .ok none => .error "TypeError"
  | .ok (some tprTh) =>
    .ok ([(((list_mean scores : ℚ) : ℝ) + ((k : ℚ) : ℝ) * list_std scores) /
            ((norm_factor_of scores : ℚ) : ℝ),
          ((fprTh : ℚ) : ℝ) / ((norm_factor_of scores : ℚ) : ℝ),
          ((tprTh : ℚ) : ℝ) / ((norm_factor_of scores : ℚ) : ℝ)],
         norm_factor_of scores)

/-- Embedding of `BaseAnoDet.normalize_score` (`base_ano_det.py` lines 129-132):
a `ValueError` when `'distance_norm_factor' not in self.params`, otherwise the
elementwise division `scores / self.params.distance_norm_factor`. -/
def normalize_score (p : Params) (scores : List ℚ) : Except String (List ℚ) :=
  match p.distance_norm_factor with
  | none => .error "Set params.distance_norm_factor to normalize score."
  | some f => .ok (scores.map (fun s => s / f))

/-- Embedding of `BaseAnoDet.evaluate_test` (`base_ano_det.py` lines 134-144).
The external collaborators are passed in as data: `scores`/`raw_scores` are
the results of `self.predict`, `fpr`/`tpr`/`thresholds` the result of
`metrics.roc_curve`, `aucVal` the result of `metrics.auc`, and `paucFn` the
function `mf ↦ metrics.roc_auc_score(..., max_fpr=mf)`.  `pauc` is computed
only when `'max_fpr' in self.params`, else it is `None`; then
`calc_thresholds` runs (its assertion failures propagate), and the 6-tuple
`(auc, pauc, norm_threshs, norm_factor, scores, raw_scores)` is returned. -/
noncomputable def evaluate_test (p : Params) (scores raw_scores fpr tpr thresholds : List ℚ)
    (aucVal : ℝ) (paucFn : ℚ → ℝ) :
    Except String (ℝ × Option ℝ × List ℝ × ℚ × List ℚ × List ℚ) :=
  let pauc : Option ℝ :=
    match p.max_fpr with
    | some mf => some (paucFn mf)
    | none => none
  match calc_thresholds p fpr tpr thresholds scores with
  | .error e => .error e
  | .ok (ths, nf) => .ok (aucVal, pauc, ths, nf, scores, raw_scores)

/-- Result record of `train_model` (`anotwin/train.py` lines 117-122), extended
with the live model weights left in `det` by the final `_set_model_wts`. -/
structure TrainResult (W : Type) where
  best_acc : ℚ
  best_loss : ℚ
  last_weights : W
  best_weights : W
  live_weights : W

/-- Fold of the epoch loop of `train_model` (`anotwin/train.py` lines 30-106),
carrying `(best_loss, best_acc, best_model_wts)`.  `loss e` / `acc e` are the
validation loss and accuracy of epoch `e`, `wts e` the snapshot
`_get_model_wts(det)` taken during epoch `e`'s validation phase, and the
initial state is `(1e10, 0.0, _get_model_wts(det))` taken before training.
The update guard is the strict comparison `epoch_loss < best_loss`. -/
def trainLoop {W : Type} (loss acc : ℕ → ℚ) (wts : ℕ → W) (w0 : W) : ℕ → ℚ × ℚ × W
  | 0 => (10 ^ 10, 0, w0)
  | n + 1 =>
    let s := trainLoop loss acc wts w0 n
    if loss n < s.1 then (loss n, acc n, wts n) else s

/-- Embedding of `train_model` (`anotwin/train.py` lines 24-122): run the epoch
fold, capture `last_wts = _get_model_wts(det)` (the epoch-`num_epochs - 1`
snapshot), restore the best snapshot into the live model, and return the
record. -/
def train_model {W : Type} (loss acc : ℕ → ℚ) (wts : ℕ → W) (w0 : W) (num_epochs : ℕ) :
    TrainResult W :=
  let s := trainLoop loss acc wts w0 num_epochs
  { best_acc := s.2.1
    best_loss := s.1
    last_weights := if num_epochs = 0 then w0 else wts (num_epochs - 1)
    best_weights := s.2.2
    live_weights := s.2.2 }

/-- Python's `k.replace('model.', '')`: remove every non-overlapping
occurrence of `"model."`, scanning left to right. -/
def stripModelOccurrences : List Char → List Char
  | 'm' :: 'o' :: 'd' :: 'e' :: 'l' :: '.' :: rest => stripModelOccurrences rest
  | c :: rest => c :: stripModelOccurrences rest
  | [] => []

/-- Per-key renaming of `remove_model` inside `DADGT.load_saved_checkpoint`
(`dadgt/dadgt_utils.py` line 267):
`k.replace('model.', '') if 'model.' == k[:len('model.')] else k`. -/
def remove_model_key (k : List Char) : List Char :=
  if List.isPrefixOf ['m', 'o', 'd', 'e', 'l', '.'] k then stripModelOccurrences k else k

/-- Embedding of `remove_model` (`dadgt/dadgt_utils.py` lines 264-269): the
state dict as an ordered association list; every key is renamed by
`remove_model_key` and values are untouched. -/
def remove_model {V : Type} (sd : List (List Char × V)) : List (List Char × V) :=
  sd.map (fun kv => (remove_model_key kv.1, kv.2))

/-- Embedding of `DADGT.predict` (`dadgt/dadgt_utils.py` lines 277-282).
`ns` is the per-sample normality list from `GeoTfmEval.simplified_normality`;
`abnormalities = 1. - np.array(ns)`; with `return_raw` the pair
`(abnormalities, abnormalities)` is returned, otherwise `abnormalities`. -/
def dadgt_predict (ns : List ℚ) (return_raw : Bool) : List ℚ ⊕ (List ℚ × List ℚ) :=
  let abnormalities := ns.map (fun x => 1 - x)
  if return_raw then .inr (abnormalities, abnormalities) else .inl abnormalities

/-- Soundness of the scan: a returned threshold is the first component of the
pair at some index whose rate meets the bound, and every earlier rate misses it. -/
theorem scanPairs_eq_some (m : ℚ) (ps : List (ℚ × ℚ)) :
    ∀ th : ℚ, scanPairs m ps = some th →
    ∃ i, ∃ hi : i < ps.length, th = (ps.get ⟨i, hi⟩).1 ∧ m ≤ (ps.get ⟨i, hi⟩).2 ∧
      ∀ j (hj : j < i), (ps.get ⟨j, Nat.lt_trans hj hi⟩).2 < m := by
  induction ps with
  | nil => intro th h; simp [scanPairs] at h
  | cons p rest ih =>
    obtain ⟨a, b⟩ := p
    intro th h
    by_cases hab : m ≤ b
    · simp only [scanPairs, if_pos hab, Option.some.injEq] at h
      exact ⟨0, by simp, by simp [← h], by simpa using hab, fun j hj => by omega⟩
    · simp only [scanPairs, if_neg hab] at h
      obtain ⟨i, hi, hth, hm, hmin⟩ := ih th h
      refine ⟨i + 1, by simpa using Nat.succ_lt_succ hi, by simpa using hth,
        by simpa using hm, ?_⟩
      intro j hj
      match j with
      | 0 => simpa using lt_of_not_le hab
      | j' + 1 => simpa using hmin j' (by omega)

/-- Completeness of the scan: if index `i` meets the bound and every earlier
index misses it, the scan returns the threshold at `i`. -/
theorem scanPairs_first (m : ℚ) (ps : List (ℚ × ℚ)) :
    ∀ i (hi : i < ps.length), m ≤ (ps.get ⟨i, hi⟩).2 →
      (∀ j (hj : j < i), (ps.get ⟨j, Nat.lt_trans hj hi⟩).2 < m) →
      scanPairs m ps = some (ps.get ⟨i, hi⟩).1 := by
  induction ps with
  | nil => intro i hi; simp at hi
  | cons p rest ih =>
    obtain ⟨a, b⟩ := p
    intro i hi hm hmin
    match i with
    | 0 => simp only [scanPairs, if_pos (by simpa using hm)]; simp
    | i' + 1 =>
      have hb : b < m := by simpa using hmin 0 (Nat.succ_pos i')
      simp only [scanPairs, if_neg (not_le.mpr hb)]
      have := ih i' (by simpa using hi) (by simpa using hm)
        (fun j hj => by simpa using hmin (j + 1) (by omega))
      simpa using this

/-- Exhaustion: if every rate in the list misses the bound, the scan returns
nothing. -/
theorem scanPairs_eq_none (m : ℚ) (ps : List (ℚ × ℚ))
    (h : ∀ i (hi : i < ps.length), (ps.get ⟨i, hi⟩).2 < m) :
    scanPairs m ps = none := by
  induction ps with
  | nil => simp [scanPairs]
  | cons p rest ih =>
    obtain ⟨a, b⟩ := p
    have hb : b < m := by simpa using h 0 (Nat.succ_pos _)
    simp only [scanPairs, if_neg (not_le.mpr hb)]
    exact ih fun i hi => by simpa using h (i + 1) (by simpa using Nat.succ_lt_succ hi)

/-- A returned threshold is a first component of one of the scanned pairs. -/
theorem scanPairs_mem (m : ℚ) (ps : List (ℚ × ℚ)) (th : ℚ)
    (h : scanPairs m ps = some th) : th ∈ ps.map Prod.fst := by
  obtain ⟨i, hi, hth, -, -⟩ := scanPairs_eq_some m ps th h
  rw [hth]
  exact List.mem_map_of_mem Prod.fst (ps.get_mem _ _)

/-- Raising the bound can only move the scan to a later pair: with first
components strictly decreasing along the list, the threshold found for the
larger bound is at most the one found for the smaller bound. -/
theorem scanPairs_mono (m1 m2 : ℚ) (hm : m1 ≤ m2) (ps : List (ℚ × ℚ)) :
    (ps.map Prod.fst).Pairwise (· > ·) →
    ∀ t2 : ℚ, scanPairs m2 ps = some t2 →
    ∃ t1, scanPairs m1 ps = some t1 ∧ t2 ≤ t1 := by
  induction ps with
  | nil => intro _ t2 h; simp [scanPairs] at h
  | cons p rest ih =>
    obtain ⟨a, b⟩ := p
    intro hpw t2 h2
    by_cases h2b : m2 ≤ b
    · simp only [scanPairs, if_pos h2b, Option.some.injEq] at h2
      exact ⟨a, by simp [scanPairs, if_pos (le_trans hm h2b)], le_of_eq h2.symm⟩
    · simp only [scanPairs, if_neg h2b] at h2
      have hpw' : (rest.map Prod.fst).Pairwise (· > ·) := (List.pairwise_cons.mp hpw).2
      by_cases h1b : m1 ≤ b
      · refine ⟨a, by simp [scanPairs, if_pos h1b], ?_⟩
        have ht2 : t2 ∈ rest.map Prod.fst := scanPairs_mem m2 rest t2 h2
        exact le_of_lt ((List.pairwise_cons.mp hpw).1 t2 ht2)
      · obtain ⟨t1, ht1, hle⟩ := ih hpw' t2 h2
        exact ⟨t1, by simp [scanPairs, if_neg h1b, ht1], hle⟩

/-- The first components of a zip are an initial segment of the left list. -/
theorem map_fst_zip_eq_take {α β : Type} :
    ∀ (l1 : List α) (l2 : List β), (l1.zip l2).map Prod.fst = l1.take l2.length
  | [], _ => by simp
  | _ :: _, [] => by simp
  | a :: l1, b :: l2 => by
    simpa using map_fst_zip_eq_take l1 l2

/-- In a strictly decreasing list the last element is a lower bound. -/
theorem sorted_gt_getLast_le (l : List ℚ) (g : ℚ) (hg : l.getLast? = some g)
    (hs : l.Pairwise (· > ·)) : ∀ t ∈ l, g ≤ t := by
  induction l with
  | nil => simp at hg
  | cons a rest ih =>
    intro t ht
    cases rest with
    | nil =>
      have ha : a = g := by simpa using hg
      have hta : t = a := by simpa using ht
      rw [hta, ha]
    | cons b rest' =>
      have hg' : (b :: rest').getLast? = some g := by simpa using hg
      have hpw := List.pairwise_cons.mp hs
      rcases List.mem_cons.mp ht with hta | htr
      · have hmem : g ∈ b :: rest' := List.mem_of_getLast?_eq_some hg'
        exact le_of_lt (hta ▸ hpw.1 g hmem)
      · exact ih hg' hpw.2 t htr

/-- Indexing a zip indexes both lists. -/
theorem get_zip_eq {α β : Type} (l1 : List α) (l2 : List β) (i : ℕ)
    (hi : i < (l1.zip l2).length) (h1 : i < l1.length) (h2 : i < l2.length) :
    (l1.zip l2).get ⟨i, hi⟩ = (l1.get ⟨i, h1⟩, l2.get ⟨i, h2⟩) := by
  simp [List.get_eq_getElem, List.getElem_zip]

/-- Indexing the tail shifts the index by one. -/
theorem get_tail_eq {α : Type} (l : List α) (i : ℕ) (hi : i < l.tail.length)
    (h2 : i + 1 < l.length) :
    l.tail.get ⟨i, hi⟩ = l.get ⟨i + 1, h2⟩ := by
  simp [List.get_eq_getElem, List.getElem_tail]

/-- A `.ok (some th)` result of `binary_clf_thresh_by_tpr` can only come from
the scanning loop. -/
theorem thresh_by_tpr_ok_some (thresholds tpr : List ℚ) (m th : ℚ)
    (h : binary_clf_thresh_by_tpr thresholds tpr m = .ok (some th)) :
    scanPairs m (thresholds.zip tpr) = some th := by
  unfold binary_clf_thresh_by_tpr at h
  rcases hscan : scanPairs m (thresholds.zip tpr) with _ | th'
  · rw [hscan] at h
    rcases hlast : tpr.getLast? with _ | l <;> rw [hlast] at h
    · simp at h
    · by_cases hl : l = 1
      · simp [hl] at h
      · simp [hl] at h
  · rw [hscan] at h
    simpa using h

/-- C1 (counterexample): on the valid ROC curve `thresholds=[0.9,0.5,0.1]`,
`tpr=[0,0.6,1.0]` with `minTpr=1.5`, every TPR is below the bound, yet
`binary_clf_thresh_by_tpr` silently returns Python `None` (modelled
`.ok none`) instead of failing with a threshold-not-found error. -/
theorem thresh_by_tpr_silent_none_counterexample :
    binary_clf_thresh_by_tpr [9/10, 1/2, 1/10] [0, 3/5, 1] (3/2) = .ok none ∧
    (0 : ℚ) < 3/2 ∧ (3/5 : ℚ) < 3/2 ∧ (1 : ℚ) < 3/2 := by
  refine ⟨?_, by norm_num, by norm_num, by norm_num⟩
  norm_num [binary_clf_thresh_by_tpr, scanPairs, List.zip]

/-- C1 (amended): `binary_clf_thresh_by_tpr` returns the threshold at the
first index whose paired TPR meets `minTpr`, so a returned threshold always
has paired TPR `≥ minTpr`, and for `thresholds=[0.9,0.5,0.1]`,
`tpr=[0,0.6,1.0]`, `minTpr=0.6` it returns `0.5`; but when no index
satisfies the bound it does not fail with a threshold-not-found error:
it asserts `tpr[-1] == 1.0`, returning `None` silently when the last TPR is
1.0 and raising an `AssertionError` only when it is not. -/
theorem thresh_by_tpr_amended :
    (∀ (thresholds tpr : List ℚ) (m th : ℚ),
        binary_clf_thresh_by_tpr thresholds tpr m = .ok (some th) →
        ∃ i, ∃ h1 : i < thresholds.length, ∃ h2 : i < tpr.length,
          th = thresholds.get ⟨i, h1⟩ ∧ m ≤ tpr.get ⟨i, h2⟩ ∧
          ∀ j (hj : j < i), tpr.get ⟨j, Nat.lt_trans hj h2⟩ < m)
    ∧ (∀ (thresholds tpr : List ℚ) (m : ℚ) (i : ℕ) (h1 : i < thresholds.length)
          (h2 : i < tpr.length), m ≤ tpr.get ⟨i, h2⟩ →
          (∀ j (hj : j < i), tpr.get ⟨j, Nat.lt_trans hj h2⟩ < m) →
          binary_clf_thresh_by_tpr thresholds tpr m = .ok (some (thresholds.get ⟨i, h1⟩)))
    ∧ (∀ (thresholds tpr : List ℚ) (m lastTpr : ℚ),
          (∀ i (h2 : i < tpr.length), i < thresholds.length → tpr.get ⟨i, h2⟩ < m) →
          tpr.getLast? = some lastTpr →
          (lastTpr = 1 → binary_clf_thresh_by_tpr thresholds tpr m = .ok none) ∧
          (lastTpr ≠ 1 → binary_clf_thresh_by_tpr thresholds tpr m =
            .error "AssertionError: TPR should have 1.0 at the end, why?"))
    ∧ binary_clf_thresh_by_tpr [9/10, 1/2, 1/10] [0, 3/5, 1] (3/5) = .ok (some (1/2)) := by
  refine ⟨?_, ?_, ?_, ?_⟩
  · intro thresholds tpr m th h
    have hscan := thresh_by_tpr_ok_some thresholds tpr m th h
    obtain ⟨i, hi, hth, hm, hmin⟩ := scanPairs_eq_some m _ th hscan
    have hlen := hi
    rw [List.length_zip] at hlen
    refine ⟨i, by omega, by omega, ?_, ?_, ?_⟩
    · rw [hth, get_zip_eq thresholds tpr i hi (by omega) (by omega)]
    · have h' := hm
      rw [get_zip_eq thresholds tpr i hi (by omega) (by omega)] at h'
      exact h'
    · intro j hj
      have h' := hmin j hj
      rw [get_zip_eq thresholds tpr j (Nat.lt_trans hj hi) (by omega) (by omega)] at h'
      exact h'
  · intro thresholds tpr m i h1 h2 hm hmin
    have hzl : i < (thresholds.zip tpr).length := by rw [List.length_zip]; omega
    have hm' : m ≤ ((thresholds.zip tpr).get ⟨i, hzl⟩).2 := by
      rw [get_zip_eq thresholds tpr i hzl h1 h2]; exact hm
    have hmin' : ∀ j (hj : j < i),
        ((thresholds.zip tpr).get ⟨j, Nat.lt_trans hj hzl⟩).2 < m := by
      intro j hj
      rw [get_zip_eq thresholds tpr j (Nat.lt_trans hj hzl) (by omega) (by omega)]
      exact hmin j hj
    have hscan := scanPairs_first m _ i hzl hm' hmin'
    rw [get_zip_eq thresholds tpr i hzl h1 h2] at hscan
    unfold binary_clf_thresh_by_tpr
    rw [hscan]
  · intro thresholds tpr m lastTpr hall hlast
    have hscan : scanPairs m (thresholds.zip tpr) = none := by
      apply scanPairs_eq_none
      intro i hi
      have hlen := hi
      rw [List.length_zip] at hlen
      rw [get_zip_eq thresholds tpr i hi (by omega) (by omega)]
      exact hall i (by omega) (by omega)
    constructor
    · intro hl
      simp only [binary_clf_thresh_by_tpr, hscan, hlast, if_pos hl]
    · intro hl
      simp only [binary_clf_thresh_by_tpr, hscan, hlast, if_neg hl]
  · norm_num [binary_clf_thresh_by_tpr, scanPairs, List.zip]

/-- C1 (witness): the amended theorem applied at concrete curves: on
`thresholds=[0.9,0.5]`, `tpr=[0,0.5]` with `minTpr=0.4` the first qualifying
index is 1 and `0.5` is returned; on `thresholds=[0.9]`, `tpr=[0.5]` with
`minTpr=0.6` no index qualifies and the last TPR is not 1, so an
`AssertionError` is raised. -/
theorem thresh_by_tpr_amended_witness :
    binary_clf_thresh_by_tpr [9/10, 1/2] [0, 1/2] (2/5) = .ok (some (1/2)) ∧
    binary_clf_thresh_by_tpr [9/10] [1/2] (3/5) =
      .error "AssertionError: TPR should have 1.0 at the end, why?" := by
  constructor
  · have h := thresh_by_tpr_amended.2.1 [9/10, 1/2] [0, 1/2] (2/5) 1 (by norm_num)
      (by norm_num) (by simp <;> norm_num)
      (by intro j hj; interval_cases j <;> simp <;> norm_num)
    simpa using h
  · exact (thresh_by_tpr_amended.2.2.1 [9/10] [1/2] (3/5) (1/2)
      (by
        intro i h2 h1
        simp only [List.length_cons, List.length_nil] at h2
        interval_cases i <;> simp <;> norm_num) rfl).2 (by norm_num)

/-- C2 (confirmed): `binary_clf_thresh_by_fpr` scans the off-by-one pairs
`(thresholds[i], fpr[i+1])` in order and returns `thresholds[i]` at the first
crossing `fpr[i+1] ≥ maxFpr`; when no crossing exists it returns the last
threshold `thresholds[-1]` instead of failing; and on
`thresholds=[0.9,0.5,0.1]`, `fpr=[0,0.2,1.0]` with `maxFpr=0.3` it
returns `0.5`. -/
theorem thresh_by_fpr_first_crossing :
    (∀ (thresholds fpr : List ℚ) (m : ℚ) (i : ℕ) (h1 : i < thresholds.length)
        (h2 : i + 1 < fpr.length), m ≤ fpr.get ⟨i + 1, h2⟩ →
        (∀ j (hj2 : j + 1 < fpr.length), j < i → fpr.get ⟨j + 1, hj2⟩ < m) →
        binary_clf_thresh_by_fpr thresholds fpr m = some (thresholds.get ⟨i, h1⟩))
    ∧ (∀ (thresholds fpr : List ℚ) (m : ℚ) (hne : thresholds ≠ []),
        (∀ i (h2 : i + 1 < fpr.length), i < thresholds.length → fpr.get ⟨i + 1, h2⟩ < m) →
        binary_clf_thresh_by_fpr thresholds fpr m = some (thresholds.getLast hne))
    ∧ binary_clf_thresh_by_fpr [9/10, 1/2, 1/10] [0, 1/5, 1] (3/10) = some (1/2) := by
  refine ⟨?_, ?_, ?_⟩
  · intro thresholds fpr m i h1 h2 hm hmin
    have hzl : i < (thresholds.zip fpr.tail).length := by
      rw [List.length_zip, List.length_tail]; omega
    have htl : i < fpr.tail.length := by rw [List.length_tail]; omega
    have hm' : m ≤ ((thresholds.zip fpr.tail).get ⟨i, hzl⟩).2 := by
      rw [get_zip_eq thresholds fpr.tail i hzl h1 htl, get_tail_eq fpr i htl h2]
      exact hm
    have hmin' : ∀ j (hj : j < i),
        ((thresholds.zip fpr.tail).get ⟨j, Nat.lt_trans hj hzl⟩).2 < m := by
      intro j hj
      have htj : j < fpr.tail.length := by omega
      rw [get_zip_eq thresholds fpr.tail j (Nat.lt_trans hj hzl) (by omega) htj,
        get_tail_eq fpr j htj (by rw [List.length_tail] at htj; omega)]
      exact hmin j _ hj
    have hscan := scanPairs_first m _ i hzl hm' hmin'
    rw [get_zip_eq thresholds fpr.tail i hzl h1 htl] at hscan
    unfold binary_clf_thresh_by_fpr
    rw [hscan]
  · intro thresholds fpr m hne hall
    have hscan : scanPairs m (thresholds.zip fpr.tail) = none := by
      apply scanPairs_eq_none
      intro i hi
      have hlen := hi
      rw [List.length_zip, List.length_tail] at hlen
      have htl : i < fpr.tail.length := by rw [List.length_tail]; omega
      rw [get_zip_eq thresholds fpr.tail i hi (by omega) htl,
        get_tail_eq fpr i htl (by omega)]
      exact hall i (by omega) (by omega)
    unfold binary_clf_thresh_by_fpr
    rw [hscan, List.getLast?_eq_getLast _ hne]
  · norm_num [binary_clf_thresh_by_fpr, scanPairs, List.zip]

/-- C2 (witness): the first-crossing clause applied at the scenario curve
(`i = 1`, threshold `0.5`), and the fallback clause applied at a curve whose
shifted FPRs all stay below the bound, returning the last threshold `0.1`. -/
theorem thresh_by_fpr_first_crossing_witness :
    binary_clf_thresh_by_fpr [9/10, 1/2, 1/10] [0, 1/5, 1] (3/10) =
      some (([9/10, 1/2, 1/10] : List ℚ).get ⟨1, by norm_num⟩) ∧
    binary_clf_thresh_by_fpr [9/10, 1/2, 1/10] [0, 1/5, 1] 2 =
      some (([9/10, 1/2, 1/10] : List ℚ).getLast (by simp)) := by
  constructor
  · exact thresh_by_fpr_first_crossing.1 [9/10, 1/2, 1/10] [0, 1/5, 1] (3/10) 1
      (by norm_num) (by norm_num) (by simp <;> norm_num)
      (by
        intro j hj2 hj
        simp only [List.length_cons, List.length_nil] at hj2
        interval_cases j <;> simp <;> norm_num)
  · exact thresh_by_fpr_first_crossing.2.1 [9/10, 1/2, 1/10] [0, 1/5, 1] 2 (by simp)
      (by
        intro i h2 h1
        simp only [List.length_cons, List.length_nil] at h2
        have hi2 : i < 2 := by omega
        interval_cases i <;> simp <;> norm_num)

/-- C4 (confirmed): on a fixed valid ROC curve (strictly decreasing
thresholds, non-decreasing FPR), `binary_clf_thresh_by_fpr` is antitone in
`maxFpr`: raising the bound yields a smaller-or-equal threshold. -/
theorem thresh_by_fpr_monotone (thresholds fpr : List ℚ) (m1 m2 : ℚ) (hm : m1 ≤ m2)
    (hth : thresholds.Sorted (· > ·)) (hfpr : fpr.Sorted (· ≤ ·)) (t1 t2 : ℚ)
    (h1 : binary_clf_thresh_by_fpr thresholds fpr m1 = some t1)
    (h2 : binary_clf_thresh_by_fpr thresholds fpr m2 = some t2) : t2 ≤ t1 := by
  have hpw : ((thresholds.zip fpr.tail).map Prod.fst).Pairwise (· > ·) := by
    rw [map_fst_zip_eq_take]
    exact List.Pairwise.sublist (List.take_sublist _ _) hth
  rcases hscan2 : scanPairs m2 (thresholds.zip fpr.tail) with _ | t2'
  · have ht2 : thresholds.getLast? = some t2 := by
      unfold binary_clf_thresh_by_fpr at h2
      rw [hscan2] at h2
      simpa using h2
    have ht1mem : t1 ∈ thresholds := by
      unfold binary_clf_thresh_by_fpr at h1
      rcases hscan1 : scanPairs m1 (thresholds.zip fpr.tail) with _ | t1'
      · rw [hscan1] at h1
        exact List.mem_of_getLast?_eq_some (by simpa using h1)
      · rw [hscan1] at h1
        have he : t1' = t1 := by simpa using h1
        subst he
        have hmem := scanPairs_mem m1 _ t1' hscan1
        rw [map_fst_zip_eq_take] at hmem
        exact List.take_subset _ _ hmem
    exact sorted_gt_getLast_le thresholds t2 ht2 hth t1 ht1mem
  · have he2 : t2' = t2 := by
      unfold binary_clf_thresh_by_fpr at h2
      rw [hscan2] at h2
      simpa using h2
    subst he2
    obtain ⟨t1', hscan1, hle⟩ := scanPairs_mono m1 m2 hm _ hpw t2' hscan2
    have he1 : t1' = t1 := by
      unfold binary_clf_thresh_by_fpr at h1
      rw [hscan1] at h1
      simpa using h1
    exact he1 ▸ hle

/-- C4 (witness): on the scenario curve, the bound `0.3` selects `0.5` while
the larger bound `2` falls back to the last threshold `0.1 ≤ 0.5`. -/
theorem thresh_by_fpr_monotone_witness : (1/10 : ℚ) ≤ 1/2 :=
  thresh_by_fpr_monotone [9/10, 1/2, 1/10] [0, 1/5, 1] (3/10) 2 (by norm_num)
    (by norm_num [List.sorted_cons]) (by norm_num [List.sorted_cons]) (1/2) (1/10)
    (by norm_num [binary_clf_thresh_by_fpr, scanPairs, List.zip])
    (by norm_num [binary_clf_thresh_by_fpr, scanPairs, List.zip, List.getLast?])

/-- Unfolding of `calc_thresholds` on the success path: all parameter guards
pass and both curve-based threshold searches succeed. -/
theorem calc_thresholds_ok (p : Params) (fpr tpr thresholds scores : List ℚ)
    (mf mt k fprTh tprTh : ℚ) (hmf : p.max_fpr = some mf) (hmt : p.min_tpr = some mt)
    (hk : p.sigma_k = some k)
    (hf : binary_clf_thresh_by_fpr thresholds fpr mf = some fprTh)
    (ht : binary_clf_thresh_by_tpr thresholds tpr mt = .ok (some tprTh)) :
    calc_thresholds p fpr tpr thresholds scores =
      .ok ([(((list_mean scores : ℚ) : ℝ) + ((k : ℚ) : ℝ) * list_std scores) /
              ((norm_factor_of scores : ℚ) : ℝ),
            ((fprTh : ℚ) : ℝ) / ((norm_factor_of scores : ℚ) : ℝ),
            ((tprTh : ℚ) : ℝ) / ((norm_factor_of scores : ℚ) : ℝ)],
           norm_factor_of scores) := by
  simp only [calc_thresholds, hmf, hmt, hk, hf, ht]

/-- Any `.ok` result of `calc_thresholds` carries
`norm_factor = max(mean, eps)` as its second component. -/
theorem calc_thresholds_nf (p : Params) (fpr tpr thresholds scores : List ℚ)
    (ths : List ℝ) (nf : ℚ)
    (h : calc_thresholds p fpr tpr thresholds scores = .ok (ths, nf)) :
    nf = norm_factor_of scores := by
  unfold calc_thresholds at h
  repeat' split at h
  all_goals simp_all

/-- C3 (confirmed): on the success path `calc_thresholds` returns the three
normalized thresholds in the fixed order sigma-policy, max-FPR-policy,
min-TPR-policy, where the raw sigma threshold is
`mean + sigma_k * std` (population statistics), the other two raw thresholds
are the results of the two ROC searches, and each raw threshold is divided by
the normalization factor. -/
theorem calc_thresholds_order (p : Params) (fpr tpr thresholds scores : List ℚ)
    (mf mt k fprTh tprTh : ℚ) (hmf : p.max_fpr = some mf) (hmt : p.min_tpr = some mt)
    (hk : p.sigma_k = some k)
    (hf : binary_clf_thresh_by_fpr thresholds fpr mf = some fprTh)
    (ht : binary_clf_thresh_by_tpr thresholds tpr mt = .ok (some tprTh)) :
    ∃ ths nf, calc_thresholds p fpr tpr thresholds scores = .ok (ths, nf) ∧
      nf = norm_factor_of scores ∧
      ths = [(((list_mean scores : ℚ) : ℝ) + ((k : ℚ) : ℝ) * list_std scores) / ((nf : ℚ) : ℝ),
             ((fprTh : ℚ) : ℝ) / ((nf : ℚ) : ℝ),
             ((tprTh : ℚ) : ℝ) / ((nf : ℚ) : ℝ)] :=
  ⟨_, _, calc_thresholds_ok p fpr tpr thresholds scores mf mt k fprTh tprTh
      hmf hmt hk hf ht, rfl, rfl⟩

/-- C3 (witness): the scenario numbers: `scores = [8, 12]` gives
`mean = 10`, `std = 2`; with `sigma_k = 2` the raw sigma threshold is `14`
and the norm factor is `10`, so the normalized thresholds are
`[1.4, 0.05, 0.05]` (the two ROC policies both pick threshold `0.5`). -/
theorem calc_thresholds_order_witness :
    calc_thresholds ⟨some (3/10), some (3/5), some 2, none⟩ [0, 1/5, 1] [0, 3/5, 1]
      [9/10, 1/2, 1/10] [8, 12] = .ok ([7/5, 1/20, 1/20], 10) := by
  obtain ⟨ths, nf, heq, hnf, hths⟩ :=
    calc_thresholds_order ⟨some (3/10), some (3/5), some 2, none⟩ [0, 1/5, 1] [0, 3/5, 1]
      [9/10, 1/2, 1/10] [8, 12] (3/10) (3/5) 2 (1/2) (1/2) rfl rfl rfl
      (by norm_num [binary_clf_thresh_by_fpr, scanPairs, List.zip])
      (by norm_num [binary_clf_thresh_by_tpr, scanPairs, List.zip])
  have hmean : list_mean [8, 12] = 10 := by norm_num [list_mean]
  have hvar : list_var [8, 12] = 4 := by norm_num [list_var, list_mean]
  have hstd : list_std [8, 12] = 2 := by
    rw [list_std, hvar]
    rw [show ((4 : ℚ) : ℝ) = (2 : ℝ) ^ 2 by norm_num]
    exact Real.sqrt_sq (by norm_num)
  have hnf10 : norm_factor_of [8, 12] = 10 := by
    rw [norm_factor_of, hmean]
    exact max_eq_left (by norm_num [float64_eps])
  rw [heq, hths, hnf, hstd, hmean, hnf10]
  norm_num

/-- C5 (counterexample): for the degenerate scores `[0, 0]` the normalization
factor computed by `calc_thresholds` is `np.finfo(float).eps = 2 ** (-52)`,
the machine epsilon, which is not the smallest representable positive float
(`2 ** (-1074)`): the claim misidentifies the constant. -/
theorem norm_factor_eps_counterexample :
    calc_thresholds ⟨some (3/10), some (3/5), some 2, none⟩ [0, 1/5, 1] [0, 3/5, 1]
      [9/10, 1/2, 1/10] [0, 0] = .ok ([0, 2 ^ 51, 2 ^ 51], float64_eps) ∧
    float64_eps ≠ max (list_mean [0, 0]) smallestRepresentablePositiveFloat := by
  constructor
  · rw [calc_thresholds_ok _ _ _ _ _ (3/10) (3/5) 2 (1/2) (1/2) rfl rfl rfl
      (by norm_num [binary_clf_thresh_by_fpr, scanPairs, List.zip])
      (by norm_num [binary_clf_thresh_by_tpr, scanPairs, List.zip])]
    have hmean : list_mean [0, 0] = 0 := by norm_num [list_mean]
    have hvar : list_var [0, 0] = 0 := by norm_num [list_var, list_mean]
    have hstd : list_std [0, 0] = 0 := by rw [list_std, hvar]; simp
    have hnf : norm_factor_of [0, 0] = float64_eps := by
      rw [norm_factor_of, hmean]
      exact max_eq_right (by norm_num [float64_eps])
    rw [hstd, hmean, hnf]
    norm_num [float64_eps]
  · have hmean : list_mean [0, 0] = 0 := by norm_num [list_mean]
    rw [hmean, max_eq_right
      (by norm_num [smallestRepresentablePositiveFloat] :
        (0 : ℚ) ≤ smallestRepresentablePositiveFloat)]
    norm_num [float64_eps, smallestRepresentablePositiveFloat]

/-- C5 (amended): the normalization factor returned by `calc_thresholds` is
`max(meanScore, eps)` where `eps = 2 ** (-52)` is the float64 machine epsilon
(not the smallest representable positive float), and it is strictly positive
even when the mean score is non-positive. -/
theorem norm_factor_amended (p : Params) (fpr tpr thresholds scores : List ℚ)
    (hne : scores ≠ []) (ths : List ℝ) (nf : ℚ)
    (h : calc_thresholds p fpr tpr thresholds scores = .ok (ths, nf)) :
    nf = max (list_mean scores) float64_eps ∧ 0 < nf := by
  have hnf := calc_thresholds_nf p fpr tpr thresholds scores ths nf h
  rw [norm_factor_of] at hnf
  refine ⟨hnf, ?_⟩
  rw [hnf]
  exact lt_of_lt_of_le (by norm_num [float64_eps]) (le_max_right _ _)

/-- C5 (witness): a successful calibration run over the single score `3`. -/
theorem norm_factor_amended_witness :
    norm_factor_of [3] = max (list_mean [3]) float64_eps ∧ 0 < norm_factor_of [3] :=
  norm_factor_amended ⟨some (3/10), some (3/5), some 2, none⟩ [0, 1/5, 1] [0, 3/5, 1]
    [9/10, 1/2, 1/10] [3] (by simp) _ _
    (calc_thresholds_ok _ _ _ _ _ (3/10) (3/5) 2 (1/2) (1/2) rfl rfl rfl
      (by norm_num [binary_clf_thresh_by_fpr, scanPairs, List.zip])
      (by norm_num [binary_clf_thresh_by_tpr, scanPairs, List.zip]))

/-- C6 (confirmed): `normalize_score` fails (with the `ValueError` asking for
`params.distance_norm_factor`) exactly when that parameter is absent; when it
is present the scores are divided elementwise by it and no error is raised. -/
theorem normalize_score_config (p : Params) (scores : List ℚ) :
    ((∃ e, normalize_score p scores = .error e) ↔ p.distance_norm_factor = none)
    ∧ (∀ f, p.distance_norm_factor = some f →
        normalize_score p scores = .ok (scores.map (fun s => s / f))) := by
  constructor
  · constructor
    · rintro ⟨e, he⟩
      rcases hd : p.distance_norm_factor with _ | f
      · rfl
      · simp [normalize_score, hd] at he
    · intro hd
      exact ⟨"Set params.distance_norm_factor to normalize score.",
        by simp [normalize_score, hd]⟩
  · intro f hf
    simp [normalize_score, hf]

/-- C6 (witness): with `distance_norm_factor = 2` the scores `[4, 6]`
normalize to `[2, 3]`. -/
theorem normalize_score_config_witness :
    normalize_score ⟨none, none, none, some 2⟩ [4, 6] = .ok [2, 3] := by
  have h := (normalize_score_config ⟨none, none, none, some 2⟩ [4, 6]).2 2 rfl
  rw [h]
  norm_num

/-- C7 (counterexample): with no max-FPR bound configured, `evaluate_test`
does not return a result tuple with a null partial AUC: `calc_thresholds`
raises `AssertionError: Set params.max_fpr.` first, so the call fails. -/
theorem evaluate_test_pauc_counterexample :
    evaluate_test ⟨none, some (3/5), some 2, none⟩ [1] [1] [0, 1/5, 1] [0, 3/5, 1]
      [9/10, 1/2, 1/10] 0 (fun _ => 0) = .error "Set params.max_fpr." := by
  simp [evaluate_test, calc_thresholds]

/-- C7 (amended): `evaluate_test` computes the partial AUC only when a
max-FPR bound is configured; but when none is configured it does not return
a tuple with a null partial AUC: it fails inside `calc_thresholds` on the
`assert 'max_fpr' in self.params` guard.  Consequently every tuple it does
return carries a non-null partial AUC. -/
theorem evaluate_test_pauc_amended (p : Params) (scores raw_scores fpr tpr thresholds : List ℚ)
    (aucVal : ℝ) (paucFn : ℚ → ℝ) :
    (p.max_fpr = none →
      evaluate_test p scores raw_scores fpr tpr thresholds aucVal paucFn =
        .error "Set params.max_fpr.")
    ∧ (∀ r, evaluate_test p scores raw_scores fpr tpr thresholds aucVal paucFn = .ok r →
        r.2.1.isSome = true ∧ p.max_fpr.isSome = true) := by
  constructor
  · intro h
    simp [evaluate_test, calc_thresholds, h]
  · intro r hr
    rcases hmf : p.max_fpr with _ | mf
    · simp [evaluate_test, calc_thresholds, hmf] at hr
    · simp only [evaluate_test, hmf] at hr
      rcases hc : calc_thresholds p fpr tpr thresholds scores with e | s
      · rw [hc] at hr
        simp at hr
      · obtain ⟨ths, nf⟩ := s
        rw [hc] at hr
        simp only [Except.ok.injEq] at hr
        rw [← hr]
        simp

/-- C7 (witness): the missing-bound clause of the amended theorem applied to
a concrete evaluation with empty data. -/
theorem evaluate_test_pauc_amended_witness :
    evaluate_test ⟨none, none, none, none⟩ [] [] [] [] [] 0 (fun _ => 0) =
      .error "Set params.max_fpr." :=
  (evaluate_test_pauc_amended ⟨none, none, none, none⟩ [] [] [] [] [] 0 (fun _ => 0)).1 rfl

/-- Invariant of the epoch fold: either no epoch ever beat the `1e10`
sentinel and the pre-training snapshot is still held, or the held snapshot
is the one taken at the earliest epoch achieving the minimum validation
loss seen so far. -/
theorem trainLoop_spec {W : Type} (loss acc : ℕ → ℚ) (wts : ℕ → W) (w0 : W) :
    ∀ n : ℕ,
      ((trainLoop loss acc wts w0 n).1 = 10 ^ 10 ∧ (trainLoop loss acc wts w0 n).2.2 = w0 ∧
        ∀ i, i < n → 10 ^ 10 ≤ loss i)
      ∨ (∃ j, j < n ∧ (trainLoop loss acc wts w0 n).1 = loss j ∧
          (trainLoop loss acc wts w0 n).2.2 = wts j ∧ loss j < 10 ^ 10 ∧
          (∀ i, i < n → loss j ≤ loss i) ∧ ∀ i, i < j → loss j < loss i) := by
  intro n
  induction n with
  | zero => exact Or.inl ⟨rfl, rfl, fun i hi => absurd hi (Nat.not_lt_zero i)⟩
  | succ n ih =>
    by_cases hlt : loss n < (trainLoop loss acc wts w0 n).1
    · right
      have e : trainLoop loss acc wts w0 (n + 1) = (loss n, acc n, wts n) := by
        simp [trainLoop, if_pos hlt]
      refine ⟨n, Nat.lt_succ_self n, by rw [e], by rw [e], ?_, ?_, ?_⟩
      · rcases ih with ⟨e1, -, -⟩ | ⟨j, -, e1, -, hj10, -, -⟩
        · exact e1 ▸ hlt
        · exact lt_trans (e1 ▸ hlt) hj10
      · intro i hi
        rcases Nat.lt_succ_iff_lt_or_eq.mp hi with hi' | hi'
        · rcases ih with ⟨e1, -, hall⟩ | ⟨j, -, e1, -, -, hall, -⟩
          · exact le_of_lt (lt_of_lt_of_le (e1 ▸ hlt) (hall i hi'))
          · exact le_of_lt (lt_of_lt_of_le (e1 ▸ hlt) (hall i hi'))
        · exact hi' ▸ le_refl _
      · intro i hi
        rcases ih with ⟨e1, -, hall⟩ | ⟨j, -, e1, -, -, hall, -⟩
        · exact lt_of_lt_of_le (e1 ▸ hlt) (hall i hi)
        · exact lt_of_lt_of_le (e1 ▸ hlt) (hall i hi)
    · have e : trainLoop loss acc wts w0 (n + 1) = trainLoop loss acc wts w0 n := by
        simp [trainLoop, if_neg hlt]
      rcases ih with ⟨e1, e2, hall⟩ | ⟨j, hj, e1, e2, hj10, hall, hearl⟩
      · left
        refine ⟨by rw [e, e1], by rw [e, e2], ?_⟩
        intro i hi
        rcases Nat.lt_succ_iff_lt_or_eq.mp hi with hi' | hi'
        · exact hall i hi'
        · subst hi'
          rw [e1] at hlt
          exact le_of_not_lt hlt
      · right
        refine ⟨j, Nat.lt_succ_of_lt hj, by rw [e, e1], by rw [e, e2], hj10, ?_, hearl⟩
        intro i hi
        rcases Nat.lt_succ_iff_lt_or_eq.mp hi with hi' | hi'
        · exact hall i hi'
        · subst hi'
          rw [e1] at hlt
          exact le_of_not_lt hlt

/-- C8 (counterexample): with a single epoch whose validation loss equals the
`1e10` initializer, epoch 0 achieves the minimum loss but is never
snapshotted: the strict `<` guard fails against the sentinel, so
`best_weights` remains the pre-training snapshot `0`, not the epoch-0
snapshot `1`. -/
theorem train_best_checkpoint_counterexample :
    (train_model (fun _ => 10 ^ 10) (fun _ => 0) (fun e => e + 1) 0 1).best_weights = 0 ∧
    (train_model (fun _ => 10 ^ 10) (fun _ => 0) (fun e => e + 1) 0 1).best_weights ≠ 0 + 1 := by
  have e : trainLoop (fun _ => (10 : ℚ) ^ 10) (fun _ => 0) (fun e => e + 1) 0 1 =
      (10 ^ 10, 0, 0) := by
    norm_num [trainLoop]
  constructor
  · simp [train_model, e]
  · simp [train_model, e]

/-- C8 (amended): provided some epoch's validation loss beats the `1e10`
initializer (true for any realistic loss), the retained best checkpoint is
the snapshot taken at the earliest epoch achieving the minimum validation
loss — selection uses strict `<` on validation loss, so ties keep the
earliest-seen best; after the final epoch the live model weights equal that
best snapshot, and the returned record also contains the last-epoch
weights. -/
theorem train_best_checkpoint_amended {W : Type} (loss acc : ℕ → ℚ) (wts : ℕ → W) (w0 : W)
    (n j : ℕ) (hj : j < n) (hsent : loss j < 10 ^ 10)
    (hmin : ∀ i, i < n → loss j ≤ loss i) (hearliest : ∀ i, i < j → loss j < loss i) :
    (train_model loss acc wts w0 n).best_weights = wts j ∧
    (train_model loss acc wts w0 n).best_loss = loss j ∧
    (train_model loss acc wts w0 n).live_weights = (train_model loss acc wts w0 n).best_weights ∧
    (train_model loss acc wts w0 n).last_weights = wts (n - 1) := by
  rcases trainLoop_spec loss acc wts w0 n with ⟨-, -, hall⟩ | ⟨j', hj', e1, e2, -, hall, hearl⟩
  · exact absurd hsent (not_lt.mpr (hall j hj))
  · have hjj : j' = j := by
      rcases lt_trichotomy j' j with h | h | h
      · exact absurd (hall j hj) (not_le.mpr (hearliest j' h))
      · exact h
      · exact absurd (hmin j' hj') (not_le.mpr (hearl j h))
    subst hjj
    have hn0 : n ≠ 0 := by omega
    refine ⟨?_, ?_, ?_, ?_⟩
    · simp [train_model, e2]
    · simp [train_model, e1]
    · simp [train_model]
    · simp [train_model, hn0]

/-- C8 (witness): for the epoch losses `[0.5, 0.3, 0.4]` the best snapshot is
the one taken at epoch index 1 (loss `0.3`, snapshot `1` under `wts = id`),
the live weights equal it, and the last-epoch snapshot is `2`. -/
theorem train_best_checkpoint_witness :
    (train_model (fun e => if e = 0 then (1 : ℚ)/2 else if e = 1 then 3/10 else 2/5)
        (fun _ => 0) (fun e => e) 99 3).best_weights = 1 ∧
    (train_model (fun e => if e = 0 then (1 : ℚ)/2 else if e = 1 then 3/10 else 2/5)
        (fun _ => 0) (fun e => e) 99 3).best_loss = 3/10 ∧
    (train_model (fun e => if e = 0 then (1 : ℚ)/2 else if e = 1 then 3/10 else 2/5)
        (fun _ => 0) (fun e => e) 99 3).live_weights =
      (train_model (fun e => if e = 0 then (1 : ℚ)/2 else if e = 1 then 3/10 else 2/5)
        (fun _ => 0) (fun e => e) 99 3).best_weights ∧
    (train_model (fun e => if e = 0 then (1 : ℚ)/2 else if e = 1 then 3/10 else 2/5)
        (fun _ => 0) (fun e => e) 99 3).last_weights = 2 := by
  have h := train_best_checkpoint_amended
    (fun e => if e = 0 then (1 : ℚ)/2 else if e = 1 then 3/10 else 2/5)
    (fun _ => 0) (fun e => e) 99 3 1 (by omega) (by norm_num)
    (by intro i hi; interval_cases i <;> norm_num)
    (by intro i hi; interval_cases i <;> norm_num)
  exact ⟨h.1, by simpa using h.2.1, h.2.2.1, h.2.2.2⟩

/-- C9 (code bug): the checkpoint key renaming uses Python
`k.replace('model.', '')` under a prefix guard, which removes every
occurrence of `"model."` — not only the leading prefix.  The key
`"model.submodel.weight"` becomes `"subweight"` instead of the
prefix-stripped `"submodel.weight"`; values and non-prefixed keys (such as
`"fc.weight"`) are untouched. -/
theorem remove_model_inner_occurrence :
    remove_model [(("model.submodel.weight").toList, (0 : ℕ)),
                  (("fc.weight").toList, 1)] =
      [(("subweight").toList, 0), (("fc.weight").toList, 1)] ∧
    ("subweight").toList ≠ ("submodel.weight").toList := by
  exact ⟨rfl, by decide⟩

/-- C10 (confirmed): when `DADGT.predict` is called with `return_raw`, the
returned pair repeats the very same abnormality list (`1 - normality`,
elementwise) in both components — there is no separate test-by-reference raw
score matrix — and without `return_raw` the single returned list is that same
abnormality list. -/
theorem dadgt_predict_raw_eq_scores (ns : List ℚ) :
    dadgt_predict ns true = .inr (ns.map (fun x => 1 - x), ns.map (fun x => 1 - x))
    ∧ (∀ scores raws, dadgt_predict ns true = .inr (scores, raws) → raws = scores)
    ∧ dadgt_predict ns false = .inl (ns.map (fun x => 1 - x)) := by
  refine ⟨rfl, ?_, rfl⟩
  intro scores raws h
  simp only [dadgt_predict, if_pos, Sum.inr.injEq, Prod.mk.injEq] at h
  rw [← h.1, ← h.2]

/-- C10 (witness): for normality `[1/4]` both returned score lists are the
abnormality `[3/4]`, and so is the single list returned without raws. -/
theorem dadgt_predict_raw_eq_scores_witness :
    dadgt_predict [1/4] true = .inr ([3/4], [3/4]) ∧
    dadgt_predict [1/4] false = .inl [3/4] := by
  have h := dadgt_predict_raw_eq_scores [1/4]
  constructor
  · rw [h.1]
    norm_num
  · rw [h.2.2]
    norm_num
